import Mathlib

/-!
# Spending tracker: shallow embedding and verification

This file embeds the core ledger logic of the spending-tracker repository
(three near-duplicate React variants) into Lean 4 and proves or refutes
the specification's claims about it.

Variant naming used below:
* `V1` — `src/src/App.tsx` (entries carry an explicit `month` field).
* `V2` — `src/unnamed/part_000` (entries stored in a per-month record).
* `V3` — `src/spend-tracker/src/App.tsx` (string categories, budgets,
  per-month localStorage partitions).

JS numbers are embedded as `JsNum` (a finite rational, `NaN`, or a signed
infinity); the claims only ever compare, add and subtract small decimal
amounts, for which ℚ is exact. JS string comparison (`<` on strings,
and `localeCompare` on the ASCII date/id strings used here) is embedded
as code-unit lexicographic comparison `jsStrLt`. React component state
plus the write-through localStorage partitions are embedded as explicit
state records; each event handler becomes a state-transition function.
-/

/-! ## JS string primitives -/

/-- Whitespace test used by `String.prototype.trim`. -/
def jsWhitespace (c : Char) : Bool := c.isWhitespace

/-- Trim on the character-list level. -/
def trimChars (cs : List Char) : List Char :=
  ((cs.dropWhile jsWhitespace).reverse.dropWhile jsWhitespace).reverse

/-- Embedding of `s.trim()`. -/
def jsTrim (s : String) : String := String.mk (trimChars s.data)

/-- Embedding of `s.slice(0, n)` (all strings involved are ASCII). -/
def jsSlice (s : String) (n : Nat) : String := String.mk (s.data.take n)

/-- Code-unit comparison of single characters (JS compares UTF-16 code
units; all strings involved are ASCII, where this agrees). -/
def charLt (a b : Char) : Bool := decide (a.toNat < b.toNat)

/-- Lexicographic code-unit comparison of character lists. -/
def strLtChars : List Char → List Char → Bool
  | [], [] => false
  | [], _ :: _ => true
  | _ :: _, [] => false
  | a :: as, b :: bs =>
    if charLt a b then true
    else if charLt b a then false
    else strLtChars as bs

/-- Embedding of the JS string order `s < t` (and of `localeCompare` on
the ASCII date strings used by V1, where locale order coincides with
code-unit order). -/
def jsStrLt (s t : String) : Bool := strLtChars s.data t.data

/-! ## JS number coercion -/

/-- Result of coercing a JS value to a number: a finite rational, `NaN`,
or a signed infinity. -/
inductive JsNum where
  | finite (q : ℚ)
  | nan
  | inf
  | negInf
deriving DecidableEq

/-- Value of a digit string, `none` if any character is not a digit.
The empty list yields `some 0`; callers check emptiness themselves. -/
def digitsVal (cs : List Char) : Option ℕ :=
  cs.foldl
    (fun acc c =>
      match acc with
      | none => none
      | some n => if c.isDigit then some (n * 10 + (c.toNat - 48)) else none)
    (some 0)

/-- Split a character list at the first dot. -/
def splitDot : List Char → List Char × Option (List Char)
  | [] => ([], none)
  | '.' :: t => ([], some t)
  | c :: t =>
    let p := splitDot t
    (c :: p.1, p.2)

/-- Parse an unsigned decimal literal (`123`, `12.34`, `1.`, `.5`). -/
def parseUnsigned (cs : List Char) : Option ℚ :=
  match splitDot cs with
  | (i, none) =>
    if i = [] then none else (digitsVal i).map (fun n => (n : ℚ))
  | (i, some f) =>
    if i = [] ∧ f = [] then none
    else
      match digitsVal i, digitsVal f with
      | some ni, some nf => some ((ni : ℚ) + (nf : ℚ) / ((10 : ℚ) ^ f.length))
      | _, _ => none

/-- Embedding of `Number(s)` on the fragment of inputs this application
feeds it: whitespace-trimmed plain decimal literals with an optional
sign, the `Infinity` forms, and the empty string (which JS coerces to
`0`); anything else — including `"abc"` and `"NaN"` — is `NaN`. -/
def jsNumber (s : String) : JsNum :=
  let t := jsTrim s
  if t.data = [] then .finite 0
  else if t = "Infinity" ∨ t = "+Infinity" then .inf
  else if t = "-Infinity" then .negInf
  else
    match t.data with
    | '+' :: rest =>
      match parseUnsigned rest with
      | some q => .finite q
      | none => .nan
    | '-' :: rest =>
      match parseUnsigned rest with
      | some q => .finite (-q)
      | none => .nan
    | cs =>
      match parseUnsigned cs with
      | some q => .finite q
      | none => .nan

/-- The add/edit amount guard common to all variants:
`Number.isFinite(amt) && amt > 0`. -/
def isValidAmount (n : JsNum) : Bool :=
  match n with
  | .finite q => decide (0 < q)
  | _ => false

/-- Numeric value of a finite `JsNum` (only used behind `isValidAmount`). -/
def jsFiniteVal : JsNum → ℚ
  | .finite q => q
  | _ => 0

example : jsNumber "abc" = JsNum.nan := by decide
example : jsNumber "0" = JsNum.finite 0 := by decide
example : jsNumber "-5" = JsNum.finite (-5) := by decide
example : jsNumber "NaN" = JsNum.nan := by decide
example : jsNumber "Infinity" = JsNum.inf := by decide

/-! ## The stable sort underlying `Array.prototype.sort`

JS `sort` is stable (ES2019). For a consistent comparator `cmp`, the
result places `a` before `b` iff `cmp a b < 0`, or `cmp` ties them and
`a` came first. `jsSort lt` below (with `lt a b` embedding
`cmp a b < 0`, "a strictly precedes b") computes exactly that order:
elements are inserted in input order, each placed after every element
it does not strictly precede. -/

def insBefore {α : Type} (lt : α → α → Bool) (a : α) : List α → List α
  | [] => [a]
  | b :: l => if lt a b then a :: b :: l else b :: insBefore lt a l

def jsSort {α : Type} (lt : α → α → Bool) (l : List α) : List α :=
  l.foldl (fun acc a => insBefore lt a acc) []

/-! ## V1 (`src/src/App.tsx`) -/

/-- The closed category union type of V1/V2, in declaration order. -/
inductive Cat where
  | Fun
  | Bill
  | Subscription
  | Hygiene
  | Gas
  | Car
  | Supplements
  | Beer
  | Food
  | Other
deriving DecidableEq

/-- `CATEGORIES` in source declaration order. -/
def CATEGORIES : List Cat :=
  [.Fun, .Bill, .Subscription, .Hygiene, .Gas, .Car, .Supplements, .Beer,
   .Food, .Other]

structure EntryV1 where
  id : String
  month : String
  date : String
  amount : ℚ
  category : Cat
  location : String
  what : String
deriving DecidableEq

/-- The edit draft of V1. The UI writes raw input strings into the
draft's amount field (the source sneaks them past the type checker with
`as unknown as any`), so the draft amount is a string here. -/
structure DraftV1 where
  id : String
  month : String
  date : String
  amountRaw : String
  category : Cat
  location : String
  what : String
deriving DecidableEq

/-- The full component state of V1. -/
structure StateV1 where
  allEntries : List EntryV1
  month : String
  date : String
  amount : String
  category : Cat
  location : String
  what : String
  editingId : Option String
  editDraft : Option DraftV1
deriving DecidableEq

/-- V1 `addExpense` (the fresh id from `crypto.randomUUID()` is passed
in as a parameter). On a validation failure the handler returns before
any `set` call, leaving the state untouched. -/
def addExpense (freshId : String) (st : StateV1) : StateV1 :=
  let n := jsNumber st.amount
  if isValidAmount n = false then st
  else if jsTrim st.what = "" then st
  else
    let entry : EntryV1 :=
      { id := freshId, month := st.month, date := st.date,
        amount := jsFiniteVal n, category := st.category,
        location := jsTrim st.location, what := jsTrim st.what }
    { st with allEntries := entry :: st.allEntries,
              amount := "", category := Cat.Fun, location := "", what := "" }

/-- V1 `deleteEntry`. -/
def deleteEntryV1 (eid : String) (st : StateV1) : StateV1 :=
  let st1 := { st with allEntries := st.allEntries.filter (fun e => e.id != eid) }
  if st.editingId = some eid then { st1 with editingId := none, editDraft := none }
  else st1

/-- The entry V1 `saveEdit` commits: all draft fields, but `month`
overwritten with the currently selected month and `date` truncated by
`slice(0, 10)`. -/
def updatedEntry (st : StateV1) (d : DraftV1) : EntryV1 :=
  { id := d.id, month := st.month, date := jsSlice d.date 10,
    amount := jsFiniteVal (jsNumber d.amountRaw), category := d.category,
    location := jsTrim d.location, what := jsTrim d.what }

/-- V1 `saveEdit`. -/
def saveEdit (st : StateV1) : StateV1 :=
  match st.editDraft, st.editingId with
  | some d, some eid =>
    if isValidAmount (jsNumber d.amountRaw) = false then st
    else if jsTrim d.what = "" then st
    else
      { st with
          allEntries := st.allEntries.map
            (fun x => if x.id == eid then updatedEntry st d else x),
          editingId := none, editDraft := none }
  | _, _ => st

/-- V1 `clearMonth`. -/
def clearMonthV1 (st : StateV1) : StateV1 :=
  { st with allEntries := st.allEntries.filter (fun e => e.month != st.month),
            editingId := none, editDraft := none }

/-- V1 `monthFromDate` (`dateISO.slice(0, 7)`). -/
def monthFromDate (dateISO : String) : String := jsSlice dateISO 7

/-- V1: selecting a month runs the `useEffect([month])` date-sync effect,
which only moves the add form's date into the selected month. -/
def monthSwitchV1 (st : StateV1) (m : String) : StateV1 :=
  let st1 := { st with month := m }
  if monthFromDate st1.date == m then st1 else { st1 with date := m ++ "-01" }

/-- V1 `monthEntries` comparator: `(a, b) => b.date.localeCompare(a.date)`;
`a` strictly precedes `b` iff `b.date < a.date`. -/
def ltV1 (a b : EntryV1) : Bool := jsStrLt b.date a.date

/-- V1 `monthEntries`: filter the selected month, then sort descending
by date (stable, no tie-break beyond input order). -/
def monthEntriesList (st : StateV1) : List EntryV1 :=
  jsSort ltV1 (st.allEntries.filter (fun e => e.month == st.month))

/-- V1 `categoryTotals`: a map seeded with `0` for every category, then
each entry's amount is added to its category's bucket. -/
def categoryTotalsV1 (es : List EntryV1) : Cat → ℚ :=
  es.foldl
    (fun m e => fun c => if c = e.category then m c + e.amount else m c)
    (fun _ => 0)

/-- The accumulator step of V1 `biggestCategory`: strict `v > bestVal`. -/
def bestStep (totals : Cat → ℚ) (st : Option Cat × ℚ) (c : Cat) :
    Option Cat × ℚ :=
  if st.2 < totals c then (some c, totals c) else st

/-- The V1 `biggestCategory` loop over `CATEGORIES` in declaration
order, starting from `best = null`, `bestVal = 0`. -/
def bestLoop (totals : Cat → ℚ) : Option Cat × ℚ :=
  CATEGORIES.foldl (bestStep totals) (none, 0)

/-- V1 `biggestCategory` result: `none` is the em-dash sentinel branch
(`best ? ... : "—"`); `some (c, v)` renders as the category name with
its formatted total. -/
def biggestCategory (totals : Cat → ℚ) : Option (Cat × ℚ) :=
  (bestLoop totals).1.map (fun b => (b, (bestLoop totals).2))

/-! ## V2 (`src/unnamed/part_000`) -/

structure ExpenseV2 where
  id : String
  date : String
  amount : ℚ
  location : String
  what : String
  category : Cat
deriving DecidableEq

/-- V2 `sortedExpenses` comparator: dates differ — newest first; dates
tie — larger id first. (On an id tie the source comparator returns `-1`
both ways, an inconsistent comparator; this embeds the strict order it
induces, which is all the source exercises since ids are unique.) -/
def ltV2 (a b : ExpenseV2) : Bool :=
  if a.date = b.date then jsStrLt b.id a.id else jsStrLt b.date a.date

/-- V2 `sortedExpenses`: a sorted copy of the month's expense list. -/
def sortedExpensesV2 (es : List ExpenseV2) : List ExpenseV2 :=
  jsSort ltV2 es

/-! ## V3 (`src/spend-tracker/src/App.tsx`)

V3 keeps the current month's entries and budgets in component state and
mirrors every mutation into per-month localStorage records
(`spendTracker:entries:<monthKey>`, `spendTracker:budgets:<monthKey>`);
switching months reloads from the records. `TrackerV3` merges the two
layers: the per-month association lists hold what the storage partitions
hold, and the current month's in-memory list is `entriesOf st st.monthKey`
(the write-through effects keep the two in sync). -/

structure EntryV3 where
  id : String
  date : String
  amount : ℚ
  category : String
  what : String
deriving DecidableEq

/-- Association-list lookup (JS object / storage-key lookup). -/
def alookup {β : Type} : List (String × β) → String → Option β
  | [], _ => none
  | (k', v) :: t, k => if k' = k then some v else alookup t k

/-- Association-list key assignment (JS `obj[k] = v`). -/
def setA {β : Type} : List (String × β) → String → β → List (String × β)
  | [], k, v => [(k, v)]
  | (k', w) :: t, k, v =>
    if k' = k then (k', v) :: t else (k', w) :: setA t k v

/-- Association-list key removal (JS `delete obj[k]` /
`localStorage.removeItem`). -/
def removeA {β : Type} : List (String × β) → String → List (String × β)
  | [], _ => []
  | (k', v) :: t, k =>
    if k' = k then removeA t k else (k', v) :: removeA t k

structure TrackerV3 where
  monthKey : String
  categories : List String
  entriesByMonth : List (String × List EntryV3)
  budgetsByMonth : List (String × List (String × ℚ))
  editingId : Option String
  formDate : String
  formAmount : String
  formCategory : String
  formWhat : String
deriving DecidableEq

/-- The entries stored for month `m` (missing record reads as empty). -/
def entriesOf (st : TrackerV3) (m : String) : List EntryV3 :=
  (alookup st.entriesByMonth m).getD []

/-- The budgets stored for month `m` (missing record reads as empty). -/
def budgetsOf (st : TrackerV3) (m : String) : List (String × ℚ) :=
  (alookup st.budgetsByMonth m).getD []

/-- V3: selecting a month runs the `useEffect([monthKey])` month-load
effect: entries/budgets for the new month are (re)loaded from their
records, and the effect resets the edit state and the form
(`setEditingId(null)`, blank amount and description, today's date). -/
def switchMonth (st : TrackerV3) (m today : String) : TrackerV3 :=
  { st with monthKey := m, editingId := none,
            formAmount := "", formWhat := "", formDate := today }

/-- V3 `deleteEntry` (the `confirm` prompt is presentation): filters the
current month's entry list; `editingId` is not touched. -/
def deleteEntryV3 (eid : String) (st : TrackerV3) : TrackerV3 :=
  { st with
      entriesByMonth :=
        setA st.entriesByMonth st.monthKey
          ((entriesOf st st.monthKey).filter (fun e => e.id != eid)) }

/-- V3 `removeCategory`: drops the name from the registry, deletes the
current month's budget entry for it, reassigns the form category if it
pointed at the removed name (using the pre-removal list, as the source
closure does). Entries are not touched. -/
def removeCategory (name : String) (st : TrackerV3) : TrackerV3 :=
  { st with
      categories := st.categories.filter (fun c => c != name),
      budgetsByMonth :=
        setA st.budgetsByMonth st.monthKey
          (removeA (budgetsOf st st.monthKey) name),
      formCategory :=
        if st.formCategory == name then
          (st.categories.find? (fun c => c != name)).getD "Other"
        else st.formCategory }

/-- V3 `clearMonth` (the `confirm` prompt is presentation): empties the
current month's entries and budgets and removes their storage records. -/
def clearMonthV3 (st : TrackerV3) : TrackerV3 :=
  { st with entriesByMonth := removeA st.entriesByMonth st.monthKey,
            budgetsByMonth := removeA st.budgetsByMonth st.monthKey }

/-- One step of V3 `categoryTotals`:
`totals[e.category] = (totals[e.category] ?? 0) + e.amount` on an
insertion-ordered association list (the JS object key order). -/
def bump : List (String × ℚ) → String → ℚ → List (String × ℚ)
  | [], k, a => [(k, a)]
  | (k', v) :: t, k, a =>
    if k' = k then (k', v + a) :: t else (k', v) :: bump t k a

/-- V3 `categoryTotals` over a month's entries: every category key that
accumulates a value appears, including orphan names absent from the
registry. -/
def categoryTotals (es : List EntryV3) : List (String × ℚ) :=
  es.foldl (fun acc e => bump acc e.category e.amount) []

/-- V3 `monthTotal`: `entries.reduce((sum, e) => sum + e.amount, 0)`. -/
def monthTotal (es : List EntryV3) : ℚ :=
  es.foldl (fun s e => s + e.amount) 0

/-- V3 `clamp`. -/
def clamp (n mn mx : ℚ) : ℚ := max mn (min mx n)

/-- The per-category progress block computed in V3's render. -/
structure Progress where
  spent : ℚ
  budget : ℚ
  pct : ℚ
  remaining : ℚ
  over : Bool
deriving DecidableEq

/-- V3 per-category budget progress:
`pct = budget > 0 ? clamp(spent / budget * 100, 0, 999) : 0`,
`remaining = budget - spent`, `over = budget > 0 && remaining < 0`. -/
def progressFor (budget spent : ℚ) : Progress :=
  let pct := if 0 < budget then clamp (spent / budget * 100) 0 999 else 0
  let remaining := budget - spent
  { spent := spent, budget := budget, pct := pct, remaining := remaining,
    over := decide (0 < budget) && decide (remaining < 0) }

/-- The rendered percent: the source shows the rounded `pct` when
`budget > 0` and the string `"No budget"` otherwise; `none` embeds that
no-budget sentinel. -/
def pctDisplay (p : Progress) : Option ℚ :=
  if 0 < p.budget then some p.pct else none

/-! ## Order lemmas for the embedded JS string comparison -/

theorem strLtChars_asymm :
    ∀ (as bs : List Char), strLtChars as bs = true → strLtChars bs as = false := by
  intro as
  induction as with
  | nil =>
    intro bs h
    cases bs with
    | nil => simp [strLtChars] at h
    | cons b t => simp [strLtChars]
  | cons a as ih =>
    intro bs h
    cases bs with
    | nil => simp [strLtChars] at h
    | cons b bs =>
      simp only [strLtChars, charLt, decide_eq_true_eq] at h ⊢
      by_cases h1 : a.toNat < b.toNat
      · have h2 : ¬ b.toNat < a.toNat := by omega
        simp [h1, h2]
      · by_cases h2 : b.toNat < a.toNat
        · simp [h1, h2] at h
        · simp [h1, h2] at h ⊢
          exact ih bs h

theorem strLtChars_negtrans :
    ∀ (as bs cs : List Char), strLtChars as bs = false →
      strLtChars bs cs = false → strLtChars as cs = false := by
  intro as
  induction as with
  | nil =>
    intro bs cs h1 h2
    cases bs with
    | nil => exact h2
    | cons b bs => simp [strLtChars] at h1
  | cons a as ih =>
    intro bs cs h1 h2
    cases bs with
    | nil =>
      cases cs with
      | nil => simp [strLtChars]
      | cons c cs => simp [strLtChars] at h2
    | cons b bs =>
      cases cs with
      | nil => simp [strLtChars]
      | cons c cs =>
        simp only [strLtChars, charLt, decide_eq_true_eq] at h1 h2 ⊢
        by_cases hab : a.toNat < b.toNat
        · simp [hab] at h1
        · by_cases hbc : b.toNat < c.toNat
          · simp [hbc] at h2
          · by_cases hba : b.toNat < a.toNat
            · have hac : ¬ a.toNat < c.toNat := by omega
              have hca : c.toNat < a.toNat := by omega
              simp [hac, hca]
            · by_cases hcb : c.toNat < b.toNat
              · have hac : ¬ a.toNat < c.toNat := by omega
                have hca : c.toNat < a.toNat := by omega
                simp [hac, hca]
              · have hac : ¬ a.toNat < c.toNat := by omega
                have hca : ¬ c.toNat < a.toNat := by omega
                simp [hab, hba] at h1
                simp [hbc, hcb] at h2
                simp [hac, hca]
                exact ih bs cs h1 h2

theorem strLtChars_conn :
    ∀ (as bs : List Char), strLtChars as bs = false →
      strLtChars bs as = false → as = bs := by
  intro as
  induction as with
  | nil =>
    intro bs h1 h2
    cases bs with
    | nil => rfl
    | cons b bs => simp [strLtChars] at h1
  | cons a as ih =>
    intro bs h1 h2
    cases bs with
    | nil => simp [strLtChars] at h2
    | cons b bs =>
      simp only [strLtChars, charLt, decide_eq_true_eq] at h1 h2
      by_cases hab : a.toNat < b.toNat
      · simp [hab] at h1
      · by_cases hba : b.toNat < a.toNat
        · simp [hab, hba] at h2
        · simp [hab, hba] at h1 h2
          have h3 : a.toNat = b.toNat := by omega
          have hc : a = b := Char.eq_of_val_eq (UInt32.ext h3)
          rw [hc, ih bs h1 h2]

theorem jsStrLt_asymm (s t : String) :
    jsStrLt s t = true → jsStrLt t s = false :=
  fun h => strLtChars_asymm _ _ h

theorem jsStrLt_negtrans (s t u : String) :
    jsStrLt s t = false → jsStrLt t u = false → jsStrLt s u = false :=
  fun h1 h2 => strLtChars_negtrans _ _ _ h1 h2

theorem jsStrLt_conn (s t : String) :
    jsStrLt s t = false → jsStrLt t s = false → s = t := by
  intro h1 h2
  cases s
  cases t
  exact congrArg String.mk (strLtChars_conn _ _ h1 h2)

/-! ## The stable sort: permutation and sortedness -/

theorem insBefore_perm {α : Type} (lt : α → α → Bool) (a : α) (l : List α) :
    (insBefore lt a l).Perm (a :: l) := by
  induction l with
  | nil => simp [insBefore]
  | cons b t ih =>
    simp only [insBefore]
    split
    · exact List.Perm.refl _
    · exact (ih.cons b).trans (List.Perm.swap a b t)

theorem mem_insBefore {α : Type} (lt : α → α → Bool) (x a : α) (l : List α) :
    x ∈ insBefore lt a l ↔ x = a ∨ x ∈ l := by
  have h := (insBefore_perm lt a l).mem_iff (a := x)
  simpa using h

theorem jsSort_perm {α : Type} (lt : α → α → Bool) (l : List α) :
    (jsSort lt l).Perm l := by
  have key : ∀ (l acc : List α),
      (l.foldl (fun acc a => insBefore lt a acc) acc).Perm (l ++ acc) := by
    intro l
    induction l with
    | nil => intro acc; simp
    | cons x t ih =>
      intro acc
      simp only [List.foldl_cons]
      have h1 := ih (insBefore lt x acc)
      have h2 : (t ++ insBefore lt x acc).Perm (t ++ (x :: acc)) :=
        List.Perm.append_left t (insBefore_perm lt x acc)
      have h3 : (x :: (t ++ acc)).Perm (t ++ x :: acc) := List.perm_middle.symm
      exact (h1.trans h2).trans (h3.symm.trans (List.Perm.refl _))
  simpa using key l []

/-- Sortedness for a strict-precedes comparator: no element strictly
precedes an element placed before it. -/
def SortedB {α : Type} (lt : α → α → Bool) (l : List α) : Prop :=
  l.Pairwise (fun x y => lt y x = false)

theorem insBefore_sortedB {α : Type} (lt : α → α → Bool)
    (hasym : ∀ a b, lt a b = true → lt b a = false)
    (hneg : ∀ a b c, lt a b = false → lt b c = false → lt a c = false)
    (a : α) :
    ∀ (l : List α), SortedB lt l → SortedB lt (insBefore lt a l) := by
  intro l
  induction l with
  | nil =>
    intro _
    simp [insBefore, SortedB]
  | cons b t ih =>
    intro hl
    rcases List.pairwise_cons.mp hl with ⟨hb, ht⟩
    simp only [insBefore]
    by_cases h : lt a b = true
    · rw [if_pos h]
      refine List.pairwise_cons.mpr ⟨?_, hl⟩
      intro y hy
      rcases List.mem_cons.mp hy with rfl | hyt
      · exact hasym a y h
      · exact hneg y b a (hb y hyt) (hasym a b h)
    · have h' : lt a b = false := by
        revert h
        cases lt a b <;> simp
      rw [if_neg h]
      refine List.pairwise_cons.mpr ⟨?_, ih ht⟩
      intro y hy
      rcases (mem_insBefore lt y a t).mp hy with rfl | hyt
      · exact h'
      · exact hb y hyt

theorem jsSort_sortedB {α : Type} (lt : α → α → Bool)
    (hasym : ∀ a b, lt a b = true → lt b a = false)
    (hneg : ∀ a b c, lt a b = false → lt b c = false → lt a c = false)
    (l : List α) : SortedB lt (jsSort lt l) := by
  have key : ∀ (l acc : List α), SortedB lt acc →
      SortedB lt (l.foldl (fun acc a => insBefore lt a acc) acc) := by
    intro l
    induction l with
    | nil => intro acc h; exact h
    | cons x t ih =>
      intro acc h
      simp only [List.foldl_cons]
      exact ih _ (insBefore_sortedB lt hasym hneg x acc h)
  exact key l [] (by simp [SortedB])

/-! ## Comparator properties of the two entry-sort comparators -/

theorem ltV1_asymm (a b : EntryV1) : ltV1 a b = true → ltV1 b a = false :=
  fun h => jsStrLt_asymm _ _ h

theorem ltV1_negtrans (a b c : EntryV1) :
    ltV1 a b = false → ltV1 b c = false → ltV1 a c = false :=
  fun h1 h2 => jsStrLt_negtrans c.date b.date a.date h2 h1

theorem ltV2_asymm (a b : ExpenseV2) : ltV2 a b = true → ltV2 b a = false := by
  intro h
  by_cases hd : a.date = b.date
  · have hd' : b.date = a.date := hd.symm
    simp only [ltV2, if_pos hd] at h
    simp only [ltV2, if_pos hd']
    exact jsStrLt_asymm _ _ h
  · have hd' : ¬ b.date = a.date := fun e => hd e.symm
    simp only [ltV2, if_neg hd] at h
    simp only [ltV2, if_neg hd']
    exact jsStrLt_asymm _ _ h

theorem ltV2_negtrans (a b c : ExpenseV2) :
    ltV2 a b = false → ltV2 b c = false → ltV2 a c = false := by
  intro h1 h2
  by_cases hab : a.date = b.date
  · by_cases hbc : b.date = c.date
    · have hac : a.date = c.date := hab.trans hbc
      simp only [ltV2, if_pos hab] at h1
      simp only [ltV2, if_pos hbc] at h2
      simp only [ltV2, if_pos hac]
      exact jsStrLt_negtrans c.id b.id a.id h2 h1
    · have hac : ¬ a.date = c.date := by rw [hab]; exact hbc
      simp only [ltV2, if_neg hbc] at h2
      simp only [ltV2, if_neg hac]
      rw [hab]
      exact h2
  · by_cases hbc : b.date = c.date
    · have hac : ¬ a.date = c.date := by rw [← hbc]; exact hab
      simp only [ltV2, if_neg hab] at h1
      simp only [ltV2, if_neg hac]
      rw [← hbc]
      exact h1
    · simp only [ltV2, if_neg hab] at h1
      simp only [ltV2, if_neg hbc] at h2
      by_cases hac : a.date = c.date
      · have h2' : jsStrLt a.date b.date = false := by rw [hac]; exact h2
        have hba : b.date = a.date := jsStrLt_conn b.date a.date h1 h2'
        exact absurd hba.symm hab
      · simp only [ltV2, if_neg hac]
        exact jsStrLt_negtrans c.date b.date a.date h2 h1

/-! ## Association-list lemmas for the V3 per-month stores -/

theorem alookup_setA_self {β : Type} (l : List (String × β)) (k : String)
    (v : β) : alookup (setA l k v) k = some v := by
  induction l with
  | nil => simp [setA, alookup]
  | cons p t ih =>
    obtain ⟨k', w⟩ := p
    simp only [setA]
    by_cases h : k' = k
    · rw [if_pos h]
      simp [alookup, h]
    · rw [if_neg h]
      simp [alookup, h, ih]

theorem alookup_setA_other {β : Type} (l : List (String × β)) (k m : String)
    (v : β) (hm : m ≠ k) : alookup (setA l k v) m = alookup l m := by
  induction l with
  | nil => simp [setA, alookup, Ne.symm hm]
  | cons p t ih =>
    obtain ⟨k', w⟩ := p
    simp only [setA]
    by_cases h : k' = k
    · rw [if_pos h]
      have h2 : ¬ k' = m := by
        rw [h]
        exact fun e => hm e.symm
      simp [alookup, h2]
    · rw [if_neg h]
      simp [alookup, ih]

theorem alookup_removeA_self {β : Type} (l : List (String × β)) (k : String) :
    alookup (removeA l k) k = none := by
  induction l with
  | nil => simp [removeA, alookup]
  | cons p t ih =>
    obtain ⟨k', w⟩ := p
    simp only [removeA]
    by_cases h : k' = k
    · rw [if_pos h]
      exact ih
    · rw [if_neg h]
      simp [alookup, h, ih]

theorem alookup_removeA_other {β : Type} (l : List (String × β)) (k m : String)
    (hm : m ≠ k) : alookup (removeA l k) m = alookup l m := by
  induction l with
  | nil => simp [removeA]
  | cons p t ih =>
    obtain ⟨k', w⟩ := p
    simp only [removeA]
    by_cases h : k' = k
    · rw [if_pos h]
      have h2 : ¬ k' = m := by
        rw [h]
        exact fun e => hm e.symm
      simp [alookup, h2, ih]
    · rw [if_neg h]
      simp [alookup, ih]

/-! ## Aggregation lemmas -/

/-- Sum of the values of a totals association list. -/
def sumSnd (l : List (String × ℚ)) : ℚ := (l.map Prod.snd).sum

theorem sumSnd_bump (l : List (String × ℚ)) (k : String) (a : ℚ) :
    sumSnd (bump l k a) = sumSnd l + a := by
  induction l with
  | nil => simp [bump, sumSnd]
  | cons p t ih =>
    obtain ⟨k', v⟩ := p
    simp only [bump]
    by_cases h : k' = k
    · rw [if_pos h]
      simp only [sumSnd, List.map_cons, List.sum_cons]
      ring
    · rw [if_neg h]
      simp only [sumSnd, List.map_cons, List.sum_cons] at ih ⊢
      rw [ih]
      ring

theorem alookup_bump (l : List (String × ℚ)) (k : String) (a : ℚ)
    (m : String) :
    alookup (bump l k a) m =
      if m = k then some ((alookup l k).getD 0 + a) else alookup l m := by
  induction l with
  | nil =>
    by_cases h : m = k
    · simp [bump, alookup, h]
    · have h2 : ¬ k = m := fun e => h e.symm
      simp [bump, alookup, h, h2]
  | cons p t ih =>
    obtain ⟨k', v⟩ := p
    simp only [bump]
    by_cases hk : k' = k
    · rw [if_pos hk]
      subst hk
      by_cases h : m = k'
      · subst h
        simp [alookup]
      · have h2 : ¬ k' = m := fun e => h e.symm
        simp [alookup, h, h2]
    · rw [if_neg hk]
      by_cases h : m = k
      · subst h
        simp [alookup, hk, ih]
      · simp [alookup, ih, h]

theorem monthTotal_eq_sum (es : List EntryV3) :
    monthTotal es = (es.map (fun e => e.amount)).sum := by
  have key : ∀ (es : List EntryV3) (s : ℚ),
      es.foldl (fun s e => s + e.amount) s
        = s + (es.map (fun e => e.amount)).sum := by
    intro es
    induction es with
    | nil => intro s; simp
    | cons e t ih =>
      intro s
      simp only [List.foldl_cons, List.map_cons, List.sum_cons, ih]
      ring
  simpa [monthTotal] using key es 0

theorem sumSnd_foldl_bump (es : List EntryV3) :
    ∀ (acc : List (String × ℚ)),
      sumSnd (es.foldl (fun acc e => bump acc e.category e.amount) acc)
        = sumSnd acc + (es.map (fun e => e.amount)).sum := by
  induction es with
  | nil => intro acc; simp
  | cons e t ih =>
    intro acc
    simp only [List.foldl_cons, List.map_cons, List.sum_cons]
    rw [ih, sumSnd_bump]
    ring

theorem alookup_foldl_bump (k : String) (es : List EntryV3) :
    ∀ (acc : List (String × ℚ)),
      (alookup (es.foldl (fun acc e => bump acc e.category e.amount) acc)
          k).getD 0
        = (alookup acc k).getD 0
          + ((es.filter (fun e => e.category == k)).map
              (fun e => e.amount)).sum := by
  induction es with
  | nil => intro acc; simp
  | cons e t ih =>
    intro acc
    simp only [List.foldl_cons]
    rw [ih, alookup_bump]
    by_cases h : k = e.category
    · subst h
      simp [List.filter_cons]
      ring
    · rw [if_neg h]
      have h2 : (e.category == k) = false :=
        beq_eq_false_iff_ne.mpr (fun e2 => h e2.symm)
      simp [List.filter_cons, h2]

/-- Value of `categoryTotals` at one key: the sum of exactly the amounts
of that key's entries. -/
theorem categoryTotals_lookup (es : List EntryV3) (k : String) :
    (alookup (categoryTotals es) k).getD 0 =
      ((es.filter (fun e => e.category == k)).map (fun e => e.amount)).sum := by
  simpa [categoryTotals, alookup] using alookup_foldl_bump k es []

/-! ## The `biggestCategory` accumulator loop -/

theorem bestLoop_facts (totals : Cat → ℚ) :
    ∀ (l : List Cat) (st : Option Cat × ℚ),
      st.2 ≤ (l.foldl (bestStep totals) st).2
      ∧ (∀ c ∈ l, totals c ≤ (l.foldl (bestStep totals) st).2)
      ∧ ((l.foldl (bestStep totals) st) = st
          ∨ ((∃ c ∈ l, (l.foldl (bestStep totals) st) = (some c, totals c))
             ∧ st.2 < (l.foldl (bestStep totals) st).2)) := by
  intro l
  induction l with
  | nil =>
    intro st
    refine ⟨le_refl _, ?_, Or.inl rfl⟩
    intro c hc
    exact absurd hc (List.not_mem_nil c)
  | cons x t ih =>
    intro st
    simp only [List.foldl_cons]
    obtain ⟨ih1, ih2, ih3⟩ := ih (bestStep totals st x)
    have hs : st.2 ≤ (bestStep totals st x).2
        ∧ totals x ≤ (bestStep totals st x).2
        ∧ (bestStep totals st x = st
           ∨ (bestStep totals st x = (some x, totals x) ∧ st.2 < totals x)) := by
      unfold bestStep
      by_cases h : st.2 < totals x
      · rw [if_pos h]
        exact ⟨le_of_lt h, le_refl _, Or.inr ⟨rfl, h⟩⟩
      · rw [if_neg h]
        exact ⟨le_refl _, le_of_not_lt h, Or.inl rfl⟩
    refine ⟨le_trans hs.1 ih1, ?_, ?_⟩
    · intro c hc
      rcases List.mem_cons.mp hc with rfl | hct
      · exact le_trans hs.2.1 ih1
      · exact ih2 c hct
    · rcases ih3 with heq | ⟨⟨c, hc, hceq⟩, hlt⟩
      · rcases hs.2.2 with h1 | ⟨h1, h2⟩
        · exact Or.inl (heq.trans h1)
        · refine Or.inr ⟨⟨x, List.mem_cons_self x t, heq.trans h1⟩, ?_⟩
          rw [heq, h1]
          exact h2
      · exact Or.inr ⟨⟨c, List.mem_cons_of_mem x hc, hceq⟩,
          lt_of_le_of_lt hs.1 hlt⟩

/-! ## Concrete fixtures used by witnesses and counterexamples -/

/-- A V1 state whose add form holds the unparseable amount `"abc"`. -/
def stAbc : StateV1 :=
  { allEntries := [], month := "2026-01", date := "2026-01-15",
    amount := "abc", category := Cat.Fun, location := "", what := "thing",
    editingId := none, editDraft := none }

/-- A January month with `Food: 30` and `Gas: 30` (the alphabetical-tie
example of the spec). -/
def eFood : EntryV1 :=
  { id := "f1", month := "2026-01", date := "2026-01-10", amount := 30,
    category := Cat.Food, location := "", what := "lunch" }

def eGas : EntryV1 :=
  { id := "g1", month := "2026-01", date := "2026-01-11", amount := 30,
    category := Cat.Gas, location := "", what := "fuel" }

def foodGasEntries : List EntryV1 := [eFood, eGas]

/-! ## C1 — rejected `addEntry` leaves the store unchanged, idempotently -/

/-- C1: whenever the add form's amount does not coerce to a finite
number strictly greater than zero, or its description is empty after
trimming, `addExpense` returns the state unchanged — no entry is
inserted and nothing else moves — and calling it again on the result
again yields the very same state. -/
theorem addExpense_rejects_invalid (freshA freshB : String) (st : StateV1)
    (h : isValidAmount (jsNumber st.amount) = false ∨ jsTrim st.what = "") :
    addExpense freshA st = st
    ∧ addExpense freshB (addExpense freshA st) = st := by
  have hgen : ∀ f, addExpense f st = st := by
    intro f
    rcases h with hv | hw
    · simp [addExpense, hv]
    · by_cases hv : isValidAmount (jsNumber st.amount) = false
      · simp [addExpense, hv]
      · simp [addExpense, hv, hw]
  exact ⟨hgen freshA, by rw [hgen freshA, hgen freshB]⟩

/-- C1 witness: the concrete amount `"abc"` (which coerces to `NaN`) is
rejected and rejection is idempotent. -/
theorem addExpense_rejects_invalid_witness :
    addExpense "w1" stAbc = stAbc
    ∧ addExpense "w2" (addExpense "w1" stAbc) = stAbc :=
  addExpense_rejects_invalid "w1" "w2" stAbc (Or.inl (by decide))

example : isValidAmount (jsNumber "0") = false := by decide
example : isValidAmount (jsNumber "-5") = false := by decide
example : isValidAmount (jsNumber "NaN") = false := by decide
example : isValidAmount (jsNumber "Infinity") = false := by decide

/-! ## C2 — category totals sum to the month total -/

/-- C2: for any list of a month's entries, summing `categoryTotals` over
all its category keys (every key that accumulated a value, orphans
included) equals `monthTotal`. -/
theorem categoryTotals_sum_eq_monthTotal (es : List EntryV3) :
    sumSnd (categoryTotals es) = monthTotal es := by
  rw [monthTotal_eq_sum]
  simpa [categoryTotals, sumSnd] using sumSnd_foldl_bump es []

/-! ## C8 — budget progress -/

/-- C8: budget progress is computed as `remaining = budget - spent`;
`over` holds exactly when the budget is positive and `remaining` is
negative; for a positive budget the displayed percent is
`clamp(spent / budget * 100, 0, 999)`, and a zero budget yields the
no-budget sentinel with `over = false`; in particular budget 100 with
spent 120 is over by 20, and budget 0 with spent 50 shows the sentinel
and is not over. -/
theorem progress_spec (b s : ℚ) :
    (progressFor b s).remaining = b - s
    ∧ ((progressFor b s).over = true ↔ (0 < b ∧ b - s < 0))
    ∧ (0 < b → pctDisplay (progressFor b s) = some (clamp (s / b * 100) 0 999))
    ∧ (b = 0 → pctDisplay (progressFor b s) = none
        ∧ (progressFor b s).over = false)
    ∧ (progressFor 100 120).over = true
    ∧ (progressFor 100 120).remaining = -20
    ∧ pctDisplay (progressFor 0 50) = none
    ∧ (progressFor 0 50).over = false := by
  refine ⟨rfl, ?_, ?_, ?_, ?_, ?_, ?_, ?_⟩
  · simp [progressFor]
  · intro hb
    simp [progressFor, pctDisplay, hb]
  · intro hb
    subst hb
    simp [progressFor, pctDisplay]
  · norm_num [progressFor]
  · norm_num [progressFor]
  · simp [progressFor, pctDisplay]
  · norm_num [progressFor]

/-- C8 witness: instantiation at budget 1, spent 0. -/
theorem progress_spec_witness :
    pctDisplay (progressFor 1 0) = some (clamp (0 / 1 * 100) 0 999) :=
  (progress_spec 1 0).2.2.1 (by norm_num)

/-! ## C3 — biggest category: argmax, tie-break, sentinel -/

/-- The spend-tracker `biggestCategory` loop: walks the totals map in
`Object.entries` order — the accumulation (key-insertion) order of
`categoryTotals` — keeping the first key whose total strictly exceeds
the best so far; starts from `bestCat = "—"`, `bestVal = 0`. -/
def bestLoopV3 (totals : List (String × ℚ)) : String × ℚ :=
  totals.foldl (fun b p => if b.2 < p.2 then p else b) ("—", 0)

/-- Spend-tracker `biggestCategory` result: the em-dash sentinel
(`none`) when `bestVal <= 0`, else the winning key with its total. -/
def biggestCategoryV3 (totals : List (String × ℚ)) : Option (String × ℚ) :=
  if (bestLoopV3 totals).2 ≤ 0 then none else some (bestLoopV3 totals)

/-- What the spend-tracker loop guarantees: the result bounds every
total, and it is either the untouched initial pair or a pair of the
list with strictly positive total. -/
theorem bestLoopV3_facts (l : List (String × ℚ)) :
    (∀ p ∈ l, p.2 ≤ (bestLoopV3 l).2)
    ∧ (bestLoopV3 l = ("—", 0)
       ∨ (bestLoopV3 l ∈ l ∧ 0 < (bestLoopV3 l).2)) := by
  have key : ∀ (l : List (String × ℚ)) (st : String × ℚ),
      st.2 ≤ (l.foldl (fun b p => if b.2 < p.2 then p else b) st).2
      ∧ (∀ p ∈ l,
          p.2 ≤ (l.foldl (fun b p => if b.2 < p.2 then p else b) st).2)
      ∧ (l.foldl (fun b p => if b.2 < p.2 then p else b) st = st
          ∨ (l.foldl (fun b p => if b.2 < p.2 then p else b) st ∈ l
             ∧ st.2 < (l.foldl (fun b p => if b.2 < p.2 then p else b) st).2)) := by
    intro l
    induction l with
    | nil =>
      intro st
      refine ⟨le_refl _, ?_, Or.inl rfl⟩
      intro p hp
      exact absurd hp (List.not_mem_nil p)
    | cons x t ih =>
      intro st
      simp only [List.foldl_cons]
      obtain ⟨ih1, ih2, ih3⟩ := ih (if st.2 < x.2 then x else st)
      have hs : st.2 ≤ (if st.2 < x.2 then x else st).2
          ∧ x.2 ≤ (if st.2 < x.2 then x else st).2
          ∧ ((if st.2 < x.2 then x else st) = st
             ∨ ((if st.2 < x.2 then x else st) = x ∧ st.2 < x.2)) := by
        by_cases h : st.2 < x.2
        · rw [if_pos h]
          exact ⟨le_of_lt h, le_refl _, Or.inr ⟨rfl, h⟩⟩
        · rw [if_neg h]
          exact ⟨le_refl _, le_of_not_lt h, Or.inl rfl⟩
      refine ⟨le_trans hs.1 ih1, ?_, ?_⟩
      · intro p hp
        rcases List.mem_cons.mp hp with rfl | hpt
        · exact le_trans hs.2.1 ih1
        · exact ih2 p hpt
      · rcases ih3 with heq | ⟨hmem, hlt⟩
        · rcases hs.2.2 with h1 | ⟨h1, h2⟩
          · exact Or.inl (heq.trans h1)
          · refine Or.inr ⟨?_, ?_⟩
            · rw [heq, h1]
              exact List.mem_cons_self x t
            · rw [heq, h1]
              exact h2
        · exact Or.inr ⟨List.mem_cons_of_mem x hmem,
            lt_of_le_of_lt hs.1 hlt⟩
  obtain ⟨_, k2, k3⟩ := key l ("—", 0)
  refine ⟨k2, ?_⟩
  rcases k3 with he | ⟨hmem, hlt⟩
  · exact Or.inl he
  · exact Or.inr ⟨hmem, by simpa using hlt⟩

/-- The Food/Gas 30/30 tie of the spec, as spend-tracker entries with
the Food entry first. -/
def v3Food : EntryV3 :=
  { id := "t1", date := "2026-01-10", amount := 30, category := "Food",
    what := "lunch" }

def v3Gas : EntryV3 :=
  { id := "t2", date := "2026-01-11", amount := 30, category := "Gas",
    what := "fuel" }

/-- C3 counterexample: on the month `{Food: 30, Gas: 30}` the `src/src`
code returns `Gas`, because its loop walks `CATEGORIES` in declaration
order (`Gas` at index 4, `Food` at index 8) and only a strictly larger
total replaces the current best — not `Food` as the lexicographic
tie-break of the claim demands. -/
theorem biggestCategory_tie_counterexample :
    biggestCategory (categoryTotalsV1 foodGasEntries) = some (Cat.Gas, 30)
    ∧ biggestCategory (categoryTotalsV1 foodGasEntries)
        ≠ some (Cat.Food, 30) := by
  constructor
  · with_unfolding_all decide
  · with_unfolding_all decide

/-- C3 amended: in both variants `biggestCategory` returns a category
of maximal (and strictly positive) total, and when every total is `≤ 0`
it returns the em-dash sentinel, never a category with a zero total —
but the tie-break is not lexicographic and differs per variant: the
`src/src` loop walks `CATEGORIES` in declaration order, so its Food/Gas
30/30 tie returns `Gas`; the spend-tracker loop walks the totals map in
accumulation (first-entry) order, so the same tie returns whichever
category was accumulated first — `Food` when a Food entry comes first,
`Gas` when a Gas entry does. -/
theorem biggestCategory_amended (totals : Cat → ℚ)
    (tl : List (String × ℚ)) :
    ((∀ c ∈ CATEGORIES, totals c ≤ 0) → biggestCategory totals = none)
    ∧ (∀ b v, biggestCategory totals = some (b, v) →
        totals b = v ∧ 0 < v ∧ ∀ c ∈ CATEGORIES, totals c ≤ v)
    ∧ biggestCategory (categoryTotalsV1 foodGasEntries)
        = some (Cat.Gas, 30)
    ∧ ((∀ p ∈ tl, p.2 ≤ 0) → biggestCategoryV3 tl = none)
    ∧ (∀ c v, biggestCategoryV3 tl = some (c, v) →
        (c, v) ∈ tl ∧ 0 < v ∧ ∀ p ∈ tl, p.2 ≤ v)
    ∧ biggestCategoryV3 (categoryTotals [v3Food, v3Gas])
        = some ("Food", 30)
    ∧ biggestCategoryV3 (categoryTotals [v3Gas, v3Food])
        = some ("Gas", 30) := by
  obtain ⟨h1, h2, h3⟩ := bestLoop_facts totals CATEGORIES (none, 0)
  obtain ⟨g2, g3⟩ := bestLoopV3_facts tl
  refine ⟨?_, ?_, ?_, ?_, ?_, ?_, ?_⟩
  · intro hz
    have hres : bestLoop totals = (none, 0) := by
      rcases h3 with he | ⟨⟨c, hc, hceq⟩, hlt⟩
      · exact he
      · rw [hceq] at hlt
        simp only at hlt
        exact absurd hlt (not_lt.mpr (hz c hc))
    simp [biggestCategory, hres]
  · intro b v hbv
    rcases hloop : bestLoop totals with ⟨ob, v'⟩
    simp only [biggestCategory, hloop] at hbv
    cases ob with
    | none => simp at hbv
    | some b' =>
      simp only [Option.map_some'] at hbv
      have hb' : b' = b := by
        have := congrArg (fun o => o.map Prod.fst) hbv
        simpa using this
      have hv' : v' = v := by
        have := congrArg (fun o => o.map Prod.snd) hbv
        simpa using this
      subst hb'
      subst hv'
      have hfold : CATEGORIES.foldl (bestStep totals) (none, 0)
          = (some b', v') := hloop
      rw [hfold] at h2 h3
      rcases h3 with he | ⟨⟨c, hc, hceq⟩, hlt⟩
      · simp at he
      · have hbc : b' = c := by
          have := congrArg Prod.fst hceq
          simpa using this
        have hvc : v' = totals c := congrArg Prod.snd hceq
        subst hbc
        refine ⟨hvc.symm, ?_, ?_⟩
        · simpa using hlt
        · intro c' hc'
          simpa using h2 c' hc'
  · with_unfolding_all decide
  · intro hz
    have hle : (bestLoopV3 tl).2 ≤ 0 := by
      rcases g3 with he | ⟨hmem, hlt⟩
      · rw [he]
      · exact hz _ hmem
    simp [biggestCategoryV3, hle]
  · intro c v hcv
    by_cases hle : (bestLoopV3 tl).2 ≤ 0
    · simp [biggestCategoryV3, hle] at hcv
    · simp only [biggestCategoryV3, if_neg hle] at hcv
      have hr : bestLoopV3 tl = (c, v) := by
        simpa using hcv
      rcases g3 with he | ⟨hmem, hlt⟩
      · exact absurd (show (bestLoopV3 tl).2 ≤ 0 by rw [he]) hle
      · refine ⟨?_, ?_, ?_⟩
        · rw [← hr]
          exact hmem
        · have h0 := hlt
          rw [hr] at h0
          simpa using h0
        · intro p hp
          have hb := g2 p hp
          rw [hr] at hb
          simpa using hb
  · with_unfolding_all decide
  · with_unfolding_all decide

/-- C3 amended witness: the all-zero V1 totals map and the empty
spend-tracker totals list both yield the sentinel. -/
theorem biggestCategory_amended_witness :
    biggestCategory (fun _ => (0 : ℚ)) = none
    ∧ biggestCategoryV3 [] = none :=
  ⟨(biggestCategory_amended (fun _ => 0) []).1 (fun _ _ => le_refl 0),
   (biggestCategory_amended (fun _ => 0) []).2.2.2.1
     (fun p hp => absurd hp (List.not_mem_nil p))⟩

/-! ## C4 — editing a date across a month boundary -/

/-- A January entry being edited with its date moved into February. -/
def e1Jan : EntryV1 :=
  { id := "e1", month := "2026-01", date := "2026-01-10", amount := 7,
    category := Cat.Food, location := "", what := "x" }

def d1Feb : DraftV1 :=
  { id := "e1", month := "2026-01", date := "2026-02-15", amountRaw := "5",
    category := Cat.Food, location := "", what := "x" }

def st4 : StateV1 :=
  { allEntries := [e1Jan], month := "2026-01", date := "2026-01-10",
    amount := "", category := Cat.Fun, location := "", what := "",
    editingId := some "e1", editDraft := some d1Feb }

/-- C4 counterexample: editing entry `e1`'s date from January into
February and saving leaves the entry in the January view — `saveEdit`
overwrites its `month` field with the currently selected month — and
the February view stays empty. The entry's effective month is not
derived from its date. -/
theorem saveEdit_month_counterexample :
    (saveEdit st4).allEntries.map (fun e => (e.id, e.month, e.date))
      = [("e1", "2026-01", "2026-02-15")]
    ∧ (monthEntriesList (saveEdit st4)).map (fun e => e.id) = ["e1"]
    ∧ (monthEntriesList (monthSwitchV1 (saveEdit st4) "2026-02")).map
        (fun e => e.id) = [] := by
  with_unfolding_all decide

/-- C4 amended: a successful `saveEdit` replaces the edited entry by the
draft's fields — id and category preserved, date truncated to its first
ten characters, amount parsed, location and description trimmed — but
sets the entry's `month` to the currently selected month rather than
deriving it from the new date, so the entry stays in the selected
month's view regardless of which month its new date belongs to; the
facade returns to Idle. -/
theorem saveEdit_amended (st : StateV1) (d : DraftV1) (eid : String)
    (hd : st.editDraft = some d) (he : st.editingId = some eid)
    (hv : isValidAmount (jsNumber d.amountRaw) = true)
    (hw : jsTrim d.what ≠ "") :
    (saveEdit st).allEntries
      = st.allEntries.map
          (fun x => if x.id == eid then updatedEntry st d else x)
    ∧ (updatedEntry st d).month = st.month
    ∧ (updatedEntry st d).id = d.id
    ∧ (updatedEntry st d).category = d.category
    ∧ (updatedEntry st d).date = jsSlice d.date 10
    ∧ (saveEdit st).editingId = none
    ∧ (saveEdit st).editDraft = none := by
  have hs : saveEdit st
      = { st with
            allEntries := st.allEntries.map
              (fun x => if x.id == eid then updatedEntry st d else x),
            editingId := none, editDraft := none } := by
    rw [saveEdit.eq_def, hd, he]
    simp [hv, hw]
  refine ⟨by rw [hs], rfl, rfl, rfl, rfl, by rw [hs], by rw [hs]⟩

/-- C4 witness: the amended statement at the concrete January/February
edit. -/
theorem saveEdit_amended_witness :
    (updatedEntry st4 d1Feb).month = st4.month
    ∧ (saveEdit st4).editingId = none :=
  ⟨(saveEdit_amended st4 d1Feb "e1" rfl rfl (by decide) (by decide)).2.1,
   (saveEdit_amended st4 d1Feb "e1" rfl rfl (by decide)
      (by decide)).2.2.2.2.2.1⟩

/-! ## C5 — month switching vs. the Editing state -/

/-- A spend-tracker state in the middle of editing entry `e9`. -/
def st5 : TrackerV3 :=
  { monthKey := "2026-01", categories := ["Food"],
    entriesByMonth := [("2026-01", [])], budgetsByMonth := [],
    editingId := some "e9", formDate := "2026-01-10", formAmount := "12",
    formCategory := "Food", formWhat := "coffee" }

/-- C5 counterexample: switching the viewed month while editing entry
`e9` exits the Editing state — the month-load effect calls
`setEditingId(null)` and blanks the form — contradicting the claim that
a month switch never implicitly exits Editing. -/
theorem monthSwitch_editing_counterexample :
    st5.editingId = some "e9"
    ∧ (switchMonth st5 "2026-03" "2026-03-05").editingId = none
    ∧ (switchMonth st5 "2026-03" "2026-03-05").formAmount = ""
    ∧ (switchMonth st5 "2026-03" "2026-03-05").formWhat = "" := by
  decide

/-- C5 amended: in the spend-tracker variant every month switch resets
the facade to Idle and clears the form (the new month's entries and
budgets are read from their stored records; the registry is untouched),
whereas in the `src/src` variant the month-switch effect only syncs the
form date and preserves the editing state, the draft and the entries. -/
theorem monthSwitch_amended (t : TrackerV3) (m today : String)
    (s : StateV1) (m1 : String) :
    (switchMonth t m today).editingId = none
    ∧ (switchMonth t m today).formAmount = ""
    ∧ (switchMonth t m today).formWhat = ""
    ∧ (switchMonth t m today).monthKey = m
    ∧ (switchMonth t m today).entriesByMonth = t.entriesByMonth
    ∧ (switchMonth t m today).categories = t.categories
    ∧ (monthSwitchV1 s m1).editingId = s.editingId
    ∧ (monthSwitchV1 s m1).editDraft = s.editDraft
    ∧ (monthSwitchV1 s m1).allEntries = s.allEntries := by
  refine ⟨rfl, rfl, rfl, rfl, rfl, rfl, ?_, ?_, ?_⟩ <;>
    · simp only [monthSwitchV1]
      split <;> rfl

/-! ## C6 — deleting the entry being edited -/

def ent6 : EntryV3 :=
  { id := "a", date := "2026-01-05", amount := 3, category := "Food",
    what := "w" }

/-- A spend-tracker state editing entry `a`. -/
def st6 : TrackerV3 :=
  { monthKey := "2026-01", categories := ["Food"],
    entriesByMonth := [("2026-01", [ent6])], budgetsByMonth := [],
    editingId := some "a", formDate := "2026-01-05", formAmount := "",
    formCategory := "Food", formWhat := "" }

/-- C6 counterexample: in the spend-tracker variant, deleting the entry
being edited removes the entry but leaves `editingId` still referencing
the deleted id — the facade does not transition to Idle. -/
theorem deleteEntry_editing_counterexample :
    entriesOf (deleteEntryV3 "a" st6) st6.monthKey = []
    ∧ (deleteEntryV3 "a" st6).editingId = some "a" := by
  decide

/-- C6 amended: in the `src/src` variant deleting an entry removes every
entry with that id and, when it was the one being edited, exits Editing
and discards the draft (delete wins) — otherwise the editing state is
untouched — so its editing state never references the deleted id. In
the spend-tracker variant `deleteEntry` leaves `editingId` unchanged,
so there the editing state can keep referencing the deleted id. -/
theorem deleteEntry_amended (st : StateV1) (eid : String) (t : TrackerV3)
    (d : String) :
    (st.editingId = some eid →
      (deleteEntryV1 eid st).editingId = none
      ∧ (deleteEntryV1 eid st).editDraft = none)
    ∧ (st.editingId ≠ some eid →
      (deleteEntryV1 eid st).editingId = st.editingId
      ∧ (deleteEntryV1 eid st).editDraft = st.editDraft)
    ∧ (∀ e ∈ (deleteEntryV1 eid st).allEntries, e.id ≠ eid)
    ∧ (deleteEntryV1 eid st).editingId ≠ some eid
    ∧ (deleteEntryV3 d t).editingId = t.editingId := by
  refine ⟨?_, ?_, ?_, ?_, rfl⟩
  · intro h
    simp [deleteEntryV1, h]
  · intro h
    simp [deleteEntryV1, h]
  · intro e he
    have hall : (deleteEntryV1 eid st).allEntries
        = st.allEntries.filter (fun e => e.id != eid) := by
      simp only [deleteEntryV1]
      split <;> rfl
    rw [hall] at he
    have h2 := (List.mem_filter.mp he).2
    simpa using h2
  · by_cases h : st.editingId = some eid
    · simp [deleteEntryV1, h]
    · simp [deleteEntryV1, h]

/-- C6 witness: the amended statement at a state that is not editing the
deleted entry (`src/src` side) — the editing state is untouched. -/
theorem deleteEntry_amended_witness :
    (deleteEntryV1 "z" stAbc).editingId = stAbc.editingId
    ∧ (deleteEntryV1 "z" stAbc).editDraft = stAbc.editDraft :=
  (deleteEntry_amended stAbc "z" st6 "a").2.1 (by decide)

/-! ## C7 — removing a category -/

def ent7 : EntryV3 :=
  { id := "p1", date := "2026-01-03", amount := 30, category := "Food",
    what := "stew" }

/-- A spend-tracker state with `Food` budgets stored for two months. -/
def st7 : TrackerV3 :=
  { monthKey := "2026-01", categories := ["Food", "Gas"],
    entriesByMonth := [("2026-01", [ent7])],
    budgetsByMonth := [("2026-01", [("Food", 10)]),
                       ("2026-02", [("Food", 20)])],
    editingId := none, formDate := "2026-01-03", formAmount := "",
    formCategory := "Gas", formWhat := "" }

/-- C7 counterexample: removing `Food` while viewing 2026-01 drops it
from the registry but leaves the 2026-02 budget record's `Food` entry
in place — budgets are deleted for the selected month only, not across
all months as the claim states. -/
theorem removeCategory_counterexample :
    alookup (budgetsOf (removeCategory "Food" st7) "2026-02") "Food"
      = some 20
    ∧ "Food" ∉ (removeCategory "Food" st7).categories := by
  constructor
  · decide
  · decide

/-- C7 amended: `removeCategory(name)` removes `name` from the registry
and deletes the budget entry keyed to `name` for the currently selected
month only — budget records of other months are untouched; the entry
stores of every month are left entirely unchanged, so `categoryTotals`
for the orphaned name still reflects the sum of those entries'
amounts. -/
theorem removeCategory_amended (st : TrackerV3) (name : String) :
    name ∉ (removeCategory name st).categories
    ∧ alookup (budgetsOf (removeCategory name st) st.monthKey) name = none
    ∧ (∀ m, m ≠ st.monthKey →
        budgetsOf (removeCategory name st) m = budgetsOf st m)
    ∧ (removeCategory name st).entriesByMonth = st.entriesByMonth
    ∧ (∀ m, (alookup (categoryTotals (entriesOf (removeCategory name st) m))
          name).getD 0
        = (((entriesOf st m).filter (fun e => e.category == name)).map
            (fun e => e.amount)).sum) := by
  refine ⟨?_, ?_, ?_, rfl, ?_⟩
  · intro hmem
    have h2 := (List.mem_filter.mp hmem).2
    simp at h2
  · have h2 : budgetsOf (removeCategory name st) st.monthKey
        = removeA (budgetsOf st st.monthKey) name := by
      simp only [budgetsOf, removeCategory]
      rw [alookup_setA_self]
      rfl
    rw [h2, alookup_removeA_self]
  · intro m hm
    simp only [budgetsOf, removeCategory]
    rw [alookup_setA_other _ _ _ _ hm]
  · intro m
    have he : entriesOf (removeCategory name st) m = entriesOf st m := rfl
    rw [he, categoryTotals_lookup]

/-- C7 witness: the amended statement at the two-month fixture — the
other month's budgets and the registry behave as stated. -/
theorem removeCategory_amended_witness :
    budgetsOf (removeCategory "Food" st7) "2026-02"
      = budgetsOf st7 "2026-02"
    ∧ "Food" ∉ (removeCategory "Food" st7).categories :=
  ⟨(removeCategory_amended st7 "Food").2.2.1 "2026-02" (by decide),
   (removeCategory_amended st7 "Food").1⟩

/-! ## C9 — display sort order -/

/-- What "not strictly preceded" means for the V2 comparator: the
earlier element has a strictly later date, or the dates tie and its id
is not smaller. -/
theorem ltV2_false_elim (x y : ExpenseV2) (h : ltV2 y x = false) :
    jsStrLt y.date x.date = true
    ∨ (y.date = x.date ∧ jsStrLt x.id y.id = false) := by
  by_cases hd : y.date = x.date
  · right
    refine ⟨hd, ?_⟩
    simpa [ltV2, hd] using h
  · left
    have h' : jsStrLt x.date y.date = false := by
      simpa [ltV2, hd] using h
    by_cases ht : jsStrLt y.date x.date = true
    · exact ht
    · have ht' : jsStrLt y.date x.date = false := by
        revert ht
        cases jsStrLt y.date x.date <;> simp
      exact absurd (jsStrLt_conn _ _ h' ht') (fun e => hd e.symm)

/-- Two same-date V1 entries inserted as `a` then `b`. -/
def s9a : EntryV1 :=
  { id := "a", month := "2026-01", date := "2026-01-05", amount := 1,
    category := Cat.Fun, location := "", what := "x" }

def s9b : EntryV1 :=
  { id := "b", month := "2026-01", date := "2026-01-05", amount := 2,
    category := Cat.Fun, location := "", what := "y" }

def st9 : StateV1 :=
  { allEntries := [s9a, s9b], month := "2026-01", date := "2026-01-05",
    amount := "", category := Cat.Fun, location := "", what := "",
    editingId := none, editDraft := none }

/-- C9 counterexample: in the `src/src` variant two entries sharing a
date are displayed in insertion order (`a` before `b`, ascending id),
not in the claimed descending-id order: the adjacent displayed pair
fails the descending-date-then-descending-id relation, so the claimed
tie-break does not govern the displayed list. -/
theorem sortOrder_counterexample :
    monthEntriesList st9 = [s9a, s9b]
    ∧ s9a.date = s9b.date
    ∧ jsStrLt s9a.id s9b.id = true
    ∧ ¬ (jsStrLt s9b.date s9a.date = true
        ∨ (s9b.date = s9a.date ∧ jsStrLt s9a.id s9b.id = false)) := by
  decide

/-- C9 amended: the unnamed variant's `sortedExpenses` is fully
deterministic exactly as claimed — a permutation of the input, pairwise
descending by date with descending-id tie-break — while the `src/src`
variant's `monthEntries` only sorts descending by date: entries sharing
a date keep their relative insertion order (stable sort), with no
id-based tie-break. -/
theorem sortOrder_amended (es : List ExpenseV2) (s : StateV1) :
    (sortedExpensesV2 es).Pairwise
      (fun x y => jsStrLt y.date x.date = true
        ∨ (y.date = x.date ∧ jsStrLt x.id y.id = false))
    ∧ (sortedExpensesV2 es).Perm es
    ∧ (monthEntriesList s).Pairwise
        (fun x y => jsStrLt x.date y.date = false)
    ∧ (monthEntriesList s).Perm
        (s.allEntries.filter (fun e => e.month == s.month)) := by
  refine ⟨?_, jsSort_perm _ _, ?_, jsSort_perm _ _⟩
  · have hs := jsSort_sortedB ltV2 ltV2_asymm ltV2_negtrans es
    exact List.Pairwise.imp (fun h => ltV2_false_elim _ _ h) hs
  · exact jsSort_sortedB ltV1 ltV1_asymm ltV1_negtrans
      (s.allEntries.filter (fun e => e.month == s.month))

/-! ## C10 — clearMonth is frame-preserving outside the selected month -/

def ent10 : EntryV3 :=
  { id := "q1", date := "2026-02-14", amount := 4, category := "Gas",
    what := "fuel" }

/-- A spend-tracker state with entries stored for two months. -/
def st10 : TrackerV3 :=
  { monthKey := "2026-01", categories := ["Food", "Gas"],
    entriesByMonth := [("2026-01", [ent7]), ("2026-02", [ent10])],
    budgetsByMonth := [("2026-02", [("Gas", 9)])],
    editingId := none, formDate := "2026-01-01", formAmount := "",
    formCategory := "Food", formWhat := "" }

/-- C10: `clearMonth` empties only the selected month: any other
month's stored entries and budgets are untouched — every entry of a
different month remains present and unchanged — and the category
registry is unchanged; likewise in the `src/src` variant every entry
whose month differs from the selected one survives `clearMonth`. -/
theorem clearMonth_frame (st : TrackerV3) (m : String)
    (h : m ≠ st.monthKey) :
    entriesOf (clearMonthV3 st) m = entriesOf st m
    ∧ budgetsOf (clearMonthV3 st) m = budgetsOf st m
    ∧ (clearMonthV3 st).categories = st.categories
    ∧ (∀ e ∈ entriesOf st m, e ∈ entriesOf (clearMonthV3 st) m)
    ∧ (∀ (s : StateV1) (e : EntryV1), e ∈ s.allEntries →
        e.month ≠ s.month → e ∈ (clearMonthV1 s).allEntries) := by
  have h1 : entriesOf (clearMonthV3 st) m = entriesOf st m := by
    simp only [entriesOf, clearMonthV3]
    rw [alookup_removeA_other _ _ _ h]
  refine ⟨h1, ?_, rfl, ?_, ?_⟩
  · simp only [budgetsOf, clearMonthV3]
    rw [alookup_removeA_other _ _ _ h]
  · intro e he
    rw [h1]
    exact he
  · intro s e he hm
    simp only [clearMonthV1]
    exact List.mem_filter.mpr ⟨he, by simpa using hm⟩

/-- C10 witness: clearing January leaves February's entries and the
registry untouched. -/
theorem clearMonth_frame_witness :
    entriesOf (clearMonthV3 st10) "2026-02" = entriesOf st10 "2026-02"
    ∧ (clearMonthV3 st10).categories = st10.categories :=
  ⟨(clearMonth_frame st10 "2026-02" (by decide)).1,
   (clearMonth_frame st10 "2026-02" (by decide)).2.2.1⟩
